import Mathlib

/-!
Shallow embedding of the `commander` Go package (a command-tree dispatcher):
`commander.go` (the `Command` structure, `Run`, `RunSubcommands`, `runsub`,
`parse`, `Lookup`, `onError`, `parameters`, the predefined `ExitOnError` and
`ContinueOnError` policies) and `split.go` (`SplitCommand`).

Modelling conventions:
  * Go strings are Lean `String`s; Go `int` is Lean `Int`.
  * The external option-parsing collaborator (the `github.com/pborman/flags`
    package) is out of scope for the package itself; the core consumes it
    through a narrow interface.  We model a parsed option struct as an
    association list `Store` (flag name to current value) and the collaborator
    as a function `Collab` that consumes tokens, updates a store, and returns
    the remaining positional tokens or an error message.  Theorems about the
    core quantify over the collaborator wherever possible; a small concrete
    collaborator `flagsParse` is provided for witnesses.
  * Mutation of the `parent` back-reference during descent is modelled by
    passing the ancestor chain (nearest first) explicitly: within one
    top-level invocation the parent chain of a node equals the dynamic
    descent path, which is exactly what the explicit chain carries.
  * Output is modelled as a trace of events (`OutEvent`): a `printf` to a
    resolved sink, an automatic `Help` invocation (its rendering is done by
    the external flags package and is not modelled beyond the invocation),
    a leaf action call, and a process exit.
  * `os.Exit` / panics are modelled as events; the recursion of `Run` is
    fuelled (the Go recursion descends the finite command tree).
-/

namespace Commander

/-- A parsed option store: flag name to current value.  Models the parsed
values held by a flags-package option struct, viewed through the narrow
interface the commander core uses. -/
abbrev Store := List (String × String)

/-- Models `flags.Lookup(c.Flags, name)`: look a flag's value up in an option
struct; a nil struct (`none`) has no flags. -/
def storeLookup : Option Store → String → Option String
  | none, _ => none
  | some st, k => st.lookup k

/-! ### split.go -/

/-- Constant `StrictDelim` from split.go (`= 0`). -/
def StrictDelim : Nat := 0

/-- Constant `TrailingDelim` from split.go (`1 << 1`). -/
def TrailingDelim : Nat := 2

/-- Constant `PreceedingDelim` from split.go (`1 << 2`). -/
def PreceedingDelim : Nat := 4

/-- Constant `AnyDelim` from split.go (`1 << 3`). -/
def AnyDelim : Nat := 8

/-- Splitting a character list on each leftmost non-overlapping occurrence of
the non-empty separator `s0 :: sep` (the character-level core of Go
`strings.Split`). -/
def goSplitChars (s0 : Char) (sep : List Char) :
    Nat → List Char → List (List Char)
  | _, [] => [[]]
  | 0, rest => [rest]
  | n + 1, c :: rest =>
    if (s0 :: sep).isPrefixOf (c :: rest) then
      [] :: goSplitChars s0 sep n (rest.drop sep.length)
    else
      match goSplitChars s0 sep n rest with
      | g :: gs => (c :: g) :: gs
      | [] => [[c]]

/-- Models Go `strings.Split`.  Go splits into single UTF-8 runes when the
separator is empty.  The `Nat` argument of `goSplitChars` is structural fuel;
every step consumes at least one character, so the input's length always
suffices and the fuel-exhausted branch is unreachable. -/
def goSplit (s sep : String) : List String :=
  match sep.data with
  | [] => s.data.map (fun ch => String.mk [ch])
  | c :: cs => (goSplitChars c cs s.data.length s.data).map String.mk

/-- Models Go `strings.HasPrefix`. -/
def goHasPre (s pre : String) : Bool := pre.data.isPrefixOf s.data

/-- Models Go `strings.HasSuffix`. -/
def goHasSuf (s suf : String) : Bool := suf.data.isSuffixOf s.data

/-- Models Go `strings.TrimPrefix`. -/
def trimPrefixOf (s pre : String) : String :=
  if goHasPre s pre then String.mk (s.data.drop pre.data.length) else s

/-- Models Go `strings.TrimSuffix`. -/
def trimSuffixOf (s suf : String) : String :=
  if goHasSuf s suf then
    String.mk (s.data.take (s.data.length - suf.data.length))
  else s

/-- First pass of `SplitCommand` (the token rewrite, run only when
`options != StrictDelim`): insert explicit delimiter markers according to the
policy bits, mirroring the Go loop body token by token. -/
def rewriteTok (delim : String) (options : Nat) (words : List String) :
    String → List String
  | arg =>
    if arg = delim then words ++ [arg]
    else if options &&& AnyDelim ≠ 0 then
      words ++ (goSplit arg delim).foldl
        (fun ws part =>
          if part.length > 0 then ws ++ [part, delim] else ws ++ [delim]) []
    else
      let pw : List String × String :=
        if options &&& PreceedingDelim ≠ 0 ∧ goHasPre arg delim then
          (words ++ [delim], trimPrefixOf arg delim)
        else (words, arg)
      if options &&& TrailingDelim ≠ 0 ∧ goHasSuf pw.2 delim then
        pw.1 ++ [trimSuffixOf pw.2 delim, delim]
      else pw.1 ++ [pw.2]

/-- The whole first pass: fold `rewriteTok` over the tokens. -/
def rewritePass (delim : String) (options : Nat) (args : List String) :
    List String :=
  args.foldl (rewriteTok delim options) []

/-- Second pass of `SplitCommand`: group consecutive non-delimiter tokens,
splitting at each delimiter token.  The Go loop keeps slice indices
`start..i`; here `cur` carries the tokens of the run currently open (in
order).  A run is emitted only when non-empty (`if i > start` in Go, and the
final `if start < len(args)`). -/
def groupPass (delim : String) (cur : List String) :
    List String → List (List String)
  | [] => if cur = [] then [] else [cur]
  | a :: rest =>
    if a = delim then
      if cur = [] then groupPass delim [] rest
      else cur :: groupPass delim [] rest
    else groupPass delim (cur ++ [a]) rest

/-- Function `SplitCommand` from split.go: rewrite tokens per the policy (skipped
entirely under `StrictDelim`), then split into groups at delimiter tokens. -/
def SplitCommand (args : List String) (delim : String) (options : Nat) :
    List (List String) :=
  let args := if options ≠ StrictDelim then rewritePass delim options args
              else args
  groupPass delim [] args

/-- Spec-side definition for the Strict policy, following the spec's words:
the groups obtained by splitting the token sequence only at elements equal to
the delimiter, with empty groups dropped. -/
def specStrictSplit (delim : String) : List String → List (List String)
  | [] => []
  | a :: rest =>
    if a = delim then specStrictSplit delim rest
    else (a :: rest.takeWhile (fun t => t ≠ delim)) ::
      specStrictSplit delim (rest.dropWhile (fun t => t ≠ delim))
termination_by l => l.length
decreasing_by
  · simp only [List.length_cons]; omega
  · simp only [List.length_cons]
    have h : ∀ l : List String,
        (l.dropWhile (fun t => decide (t ≠ delim))).length ≤ l.length := by
      intro l
      induction l with
      | nil => simp [List.dropWhile]
      | cons x xs ih =>
        simp only [List.dropWhile]
        split

        next => simpa using Nat.le_succ_of_le ih
        next => simp
    have := h rest
    omega

/-! ### commander.go: errors, policies, output events -/

/-- Constant `NoArgs` from commander.go: the `MaxArgs` sentinel forbidding positional
arguments. -/
def NoArgs : Int := -1

/-- A Go `error` as the commander core distinguishes them: a `*UsageError`
(which carries the offending command, represented here by its full
space-joined path, plus an optional cause) or any other error (those returned
by leaf actions), carried as its message text.  The model fuel running out is
its own case so that it can never be mistaken for program behaviour. -/
inductive GoErr where
  | usage (path : String) (cause : Option String)
  | exec (text : String)
  | fuelOut
deriving DecidableEq, Repr

/-- Models `UsageError.Error()` and the `%v` formatting of an error: a usage error
with a cause prints `"<path>: <cause>"`, one without prints
`"<path>: incorrect usage"`. -/
def GoErr.text : GoErr → String
  | .usage p none => p ++ ": incorrect usage"
  | .usage p (some c) => p ++ ": " ++ c
  | .exec t => t
  | .fuelOut => "model: out of fuel"

/-- An `OnError` handler.  `exitOnError` and `continueOnError` are the two
predefined handlers from commander.go (both print the error via `c.printf`);
`custom` is an arbitrary user handler, given the post-parse argument list and
the error (it does not print in this model). -/
inductive Policy where
  | exitOnError
  | continueOnError
  | custom (f : List String → GoErr → Option GoErr)

/-- Observable output: a `printf` to a resolved sink (sinks are numbered,
`0` is the process-wide default `stderr`), an automatic `Help` invocation for
the command at a given path (its rendering is delegated to the external flags
package and not modelled further), a leaf action (`Func`) call, and
`os.Exit`. -/
inductive OutEvent where
  | msg (sink : Nat) (text : String)
  | helpFor (path : String)
  | funcCalled (path : String) (args : List String)
  | exited (code : Nat)
deriving DecidableEq, Repr

/-- The observable result of a run: the ordered event trace and the returned
error (`none` = nil). -/
structure RunOut where
  events : List OutEvent
  err : Option GoErr
deriving DecidableEq, Repr

/-! ### The Command structure -/

/-- The `Command` structure from commander.go.  The mutable `parent`
back-reference is not a field here: it is set only while resolution descends,
so it is modelled by passing the ancestor chain explicitly to every function
that walks it.  `Help`/`Description` (pure help texts rendered by the external
flags package) are omitted; `Stderr` is a sink number; `Func` is modelled by
the error it returns on given remaining arguments (its own prints are not
events of this model, only the fact that it was called). -/
inductive Command where
  | mk
    (Name : String)
    (Parameters : String)
    (MinArgs : Int)
    (MaxArgs : Int)
    (Defaults : Option Store)
    (Flags : Option Store)
    (Func : Option (List String → Option GoErr))
    (SubCommands : Option (List Command))
    (Stderr : Option Nat)
    (OnError : Option Policy)

/-- Field accessor: `Name`. -/
def Command.Name : Command → String
  | .mk n _ _ _ _ _ _ _ _ _ => n

/-- Field accessor: `Parameters`. -/
def Command.Parameters : Command → String
  | .mk _ p _ _ _ _ _ _ _ _ => p

/-- Field accessor: `MinArgs`. -/
def Command.MinArgs : Command → Int
  | .mk _ _ mn _ _ _ _ _ _ _ => mn

/-- Field accessor: `MaxArgs`. -/
def Command.MaxArgs : Command → Int
  | .mk _ _ _ mx _ _ _ _ _ _ => mx

/-- Field accessor: `Defaults`. -/
def Command.Defaults : Command → Option Store
  | .mk _ _ _ _ d _ _ _ _ _ => d

/-- Field accessor: `Flags`. -/
def Command.Flags : Command → Option Store
  | .mk _ _ _ _ _ f _ _ _ _ => f

/-- Field accessor: `Func`. -/
def Command.Func : Command → Option (List String → Option GoErr)
  | .mk _ _ _ _ _ _ fn _ _ _ => fn

/-- Field accessor: `SubCommands` (`none` models a nil slice). -/
def Command.SubCommands : Command → Option (List Command)
  | .mk _ _ _ _ _ _ _ sc _ _ => sc

/-- Field accessor: `Stderr` (an optional sink number). -/
def Command.Stderr : Command → Option Nat
  | .mk _ _ _ _ _ _ _ _ st _ => st

/-- Field accessor: `OnError`. -/
def Command.OnError : Command → Option Policy
  | .mk _ _ _ _ _ _ _ _ _ oe => oe

/-- Models `Command.Command()` from commander.go: the space-joined multi-part
command name.  `anc` is the parent chain, nearest ancestor first. -/
def Command.path (c : Command) (anc : List Command) : String :=
  match anc with
  | [] => c.Name
  | p :: rest => Command.path p rest ++ " " ++ c.Name

/-- Lexicographic comparison of character lists (the order `sort.Strings`
uses: Go compares strings byte-wise, which agrees with comparing Unicode
code points for valid UTF-8). -/
def charListLe : List Char → List Char → Bool
  | [], _ => true
  | _ :: _, [] => false
  | a :: as, b :: bs =>
    if a.toNat < b.toNat then true
    else if b.toNat < a.toNat then false
    else charListLe as bs

/-- String comparison used by the `sort.Strings` model. -/
def strLe (a b : String) : Bool := charListLe a.data b.data

/-- Models `sort.Strings`: insert into a sorted list. -/
def insertSorted (x : String) : List String → List String
  | [] => [x]
  | y :: ys => if strLe x y then x :: y :: ys else y :: insertSorted x ys

/-- Models `sort.Strings` (insertion sort, ascending). -/
def sortStrings : List String → List String
  | [] => []
  | x :: xs => insertSorted x (sortStrings xs)

/-- Models `Command.subCommands()` from commander.go: the names of the direct
sub-commands, sorted. -/
def Command.subCommands (c : Command) : List String :=
  sortStrings ((c.SubCommands.getD []).map Command.Name)

/-- The child search of `runsub` (also `Command.findSub`): the first
sub-command whose `Name` equals the token, by exact case-sensitive
comparison. -/
def Command.findSub (c : Command) (nm : String) : Option Command :=
  (c.SubCommands.getD []).find? (fun sc => sc.Name = nm)

/-- Models `Command.stderr()` from commander.go: the first `Stderr` set on the chain
from the node itself to the root, defaulting to the process-wide sink `0`. -/
def resolveStderr : List Command → Nat
  | [] => 0
  | c :: rest => match c.Stderr with
    | some s => s
    | none => resolveStderr rest

/-- The chain walk of `Command.onError` from commander.go: the first
`OnError` set on the chain from the node itself to the root (`onError` also
returns nil when the error is nil; that test lives in `finalize`). -/
def resolveOnError : List Command → Option Policy
  | [] => none
  | c :: rest => match c.OnError with
    | some p => some p
    | none => resolveOnError rest

/-! ### Option parsing (the collaborator interface) and Command.parse -/

/-- The narrow interface to the external flags package, as used by
`Command.parse`: given the store registered for parsing and the raw tokens,
return the (possibly partially) updated store, the remaining positional
tokens, and an optional error message. -/
abbrev Collab := Store → List String → Store × List String × Option String

/-- Argument-count validation from `Command.parse` (the three checks after
flag parsing, in source order): `MaxArgs == NoArgs` forbids any tokens, then
fewer than `MinArgs` tokens, then more than a positive `MaxArgs` tokens. -/
def validateCount (path : String) (MinArgs MaxArgs : Int)
    (args : List String) : Option GoErr :=
  if MaxArgs = NoArgs ∧ args ≠ [] then
    some (.usage path (some "takes no arguments"))
  else if (args.length : Int) < MinArgs then
    some (.usage path (some ("requires at least " ++ toString MinArgs ++
      " arguments")))
  else if 0 < MaxArgs ∧ MaxArgs < (args.length : Int) then
    some (.usage path (some ("takes no more than " ++ toString MaxArgs ++
      " arguments")))
  else none

/-- The flag-registration and flag-parsing part of `Command.parse`:
if `Defaults` is set, `flags.RegisterNew` parses into a fresh copy of the
`Defaults` prototype, which becomes the new `Flags`; otherwise, if `Flags` is
set, parsing mutates that store in place; with neither set no option parsing
happens.  Returns the new `Flags` value, the token list the Go code goes on
with (`set.Args()` on success, the original tokens on a parse error, which
returns early), and the optional parse error message. -/
def parseOptions (P : Collab) (Defaults Flags : Option Store)
    (args : List String) : Option Store × List String × Option String :=
  match Defaults, Flags with
  | some d, _ =>
    let r := P d args
    (some r.1, if r.2.2 = none then r.2.1 else args, r.2.2)
  | none, some f =>
    let r := P f args
    (some r.1, if r.2.2 = none then r.2.1 else args, r.2.2)
  | none, none => (none, args, none)

/-- Models `Command.parse` from commander.go: register and parse flags, then
validate the remaining positional token count.  A flag-parse failure is
wrapped as a `UsageError` naming the node (its cause is the collaborator's
message) and returns before validation.  (The temporary redirection of
`c.Stderr` into an internal buffer only captures the collaborator's own usage
output, which the function never replays; it has no observable effect and is
not modelled.) -/
def Command.parse (P : Collab) (c : Command) (path : String)
    (args : List String) : Option Store × List String × Option GoErr :=
  let r := parseOptions P c.Defaults c.Flags args
  match r.2.2 with
  | some msg => (r.1, r.2.1, some (.usage path (some msg)))
  | none => (r.1, r.2.1, validateCount path c.MinArgs c.MaxArgs r.2.1)

/-! ### Run, runsub, RunSubcommands, the OnError finalizer -/

/-- The deferred finalizer shared by `Run` and `RunSubcommands`: when the
body produced an error and the chain resolves an `OnError` handler, the
handler is called (with the node, the post-parse arguments and the error) and
its result replaces the returned error.  `ExitOnError` prints the error to
the resolved sink and exits with status 1 (returning nil); `ContinueOnError`
prints the error and returns nil. -/
def finalize (sink : Nat) (pol : Option Policy) (args : List String)
    (r : RunOut) : RunOut :=
  match r.err with
  | none => r
  | some e =>
    match pol with
    | none => r
    | some .exitOnError =>
      ⟨r.events ++ [.msg sink (e.text ++ "\n"), .exited 1], none⟩
    | some .continueOnError =>
      ⟨r.events ++ [.msg sink (e.text ++ "\n")], none⟩
    | some (.custom f) => ⟨r.events, f args e⟩

/-- Models `Command.runsub` from commander.go, parameterized by the recursive call
used to run the selected child (`Run` with the remaining fuel).  With no
tokens it fails with the "sub command required" usage error listing the
sorted child names; otherwise the first token selects the child by exact
name, the child's parent back-reference is pointed at `c` (modelled by
passing `c :: anc` as the child's chain), and the child is run on the rest of
the tokens; an unmatched token fails with the "unknown command" usage
error. -/
def runsubWith (run : Command → List Command → List String → RunOut)
    (c : Command) (anc : List Command) (args : List String) : RunOut :=
  match args with
  | [] =>
    ⟨[], some (.usage (c.path anc) (some ("sub command required \x7b" ++
      String.intercalate ", " c.subCommands ++ "\x7d")))⟩
  | t :: rest =>
    match c.findSub t with
    | some sc => run sc (c :: anc) rest
    | none => ⟨[], some (.usage (c.path anc) (some (t ++ ": unknown command")))⟩

/-- The body of `Command.Run` (everything inside the deferred `OnError`
finalizer), parameterized by the recursive call for children.  On a parse
error the error is printed to the resolved sink and, being a `UsageError`, an
automatic `Help` is invoked for its command; the error is then returned.
Otherwise: sub-command dispatch when `SubCommands` is non-nil and tokens
remain; else the action when `Func` is set; else nil.  Returns the post-parse
token list (the Go `args` variable, seen by the deferred finalizer) alongside
the result. -/
def runBody (P : Collab) (run : Command → List Command → List String → RunOut)
    (c : Command) (anc : List Command) (args : List String) :
    List String × RunOut :=
  let path := c.path anc
  let r := Command.parse P c path args
  match r.2.2 with
  | some e =>
    (r.2.1,
      ⟨[.msg (resolveStderr (c :: anc)) (e.text ++ "\n")] ++
        (match e with
         | .usage p _ => [.helpFor p]
         | _ => []), some e⟩)
  | none =>
    (r.2.1,
      if c.SubCommands.isSome ∧ r.2.1 ≠ [] then runsubWith run c anc r.2.1
      else match c.Func with
        | some f => ⟨[.funcCalled path r.2.1], f r.2.1⟩
        | none => ⟨[], none⟩)

/-- Models `Command.Run` from commander.go, with fuel bounding the recursion depth
(the Go recursion descends the finite command tree, consuming one positional
token per level). -/
def Command.Run (P : Collab) : Nat → Command → List Command → List String →
    RunOut
  | 0, _, _, _ => ⟨[], some .fuelOut⟩
  | n + 1, c, anc, args =>
    let b := runBody P (fun sc anc' rest => Command.Run P n sc anc' rest)
      c anc args
    finalize (resolveStderr (c :: anc)) (resolveOnError (c :: anc)) b.1 b.2

/-- Models `Command.runsub` itself (child dispatch with the given fuel for the
child's `Run`). -/
def Command.runsub (P : Collab) (n : Nat) (c : Command) (anc : List Command)
    (args : List String) : RunOut :=
  runsubWith (fun sc anc' rest => Command.Run P n sc anc' rest) c anc args

/-- Models `Command.RunSubcommands` from commander.go: like `Run` (same parse-error
handling, same deferred finalizer) except that after a successful parse it
unconditionally attempts child dispatch, ignoring `Func`. -/
def Command.RunSubcommands (P : Collab) (n : Nat) (c : Command)
    (anc : List Command) (args : List String) : RunOut :=
  let path := c.path anc
  let r := Command.parse P c path args
  let b : List String × RunOut :=
    match r.2.2 with
    | some e =>
      (r.2.1,
        ⟨[.msg (resolveStderr (c :: anc)) (e.text ++ "\n")] ++
          (match e with
           | .usage p _ => [.helpFor p]
           | _ => []), some e⟩)
    | none => (r.2.1, Command.runsub P n c anc r.2.1)
  finalize (resolveStderr (c :: anc)) (resolveOnError (c :: anc)) b.1 b.2

/-! ### Lookup -/

/-- Models `Command.Lookup` from commander.go, over the chain consisting of the node
itself followed by its ancestors: at each node whose name matches `cmd` (or
any node when `cmd` is empty), look `name` up in the node's current `Flags`
snapshot; on a miss (wrong name or flag not found) continue with the parent;
an exhausted chain (the nil receiver) yields `none`, never an error. -/
def Lookup : List Command → String → String → Option String
  | [], _, _ => none
  | c :: rest, cmd, name =>
    if cmd = "" ∨ cmd = c.Name then
      match storeLookup c.Flags name with
      | some v => some v
      | none => Lookup rest cmd name
    else Lookup rest cmd name

/-! ### parameters -/

/-- Models `Command.parameters` from commander.go, as a function of the three fields
it reads.  The Go code builds `" arg0 arg1 ..."` in a `strings.Builder` and
returns `b.String()[1:]`; when the builder is empty that slice is out of
range and the Go program panics, modelled as `none`. -/
def parametersOf (Parameters : String) (MinArgs MaxArgs : Int) :
    Option String :=
  if Parameters ≠ "" then some Parameters
  else if MaxArgs = NoArgs then some ""
  else
    let b := String.join ((List.range MinArgs.toNat).map
      (fun i => " arg" ++ toString i))
    let b := if MaxArgs = 0 ∨ MaxArgs < MinArgs then b ++ " ..." else b
    if b = "" then none else some (b.drop 1)

/-- Models `Command.parameters` on a command value. -/
def Command.parameters (c : Command) : Option String :=
  parametersOf c.Parameters c.MinArgs c.MaxArgs

/-! ### A concrete collaborator for witnesses -/

/-- Modelled from the spec: the out-of-scope option-parsing collaborator
("turns a flag specification struct plus raw tokens into parsed values and an
error").  This minimal concrete instance consumes leading `--key=value`
tokens: a token assigning a flag the store defines updates it; assigning an
undefined flag is the collaborator's parse error; the first token that is not
a flag assignment ends flag parsing, the rest are positional. -/
def parseFlagTok (t : String) : Option (String × String) :=
  match t.data with
  | '-' :: '-' :: rest =>
    match goSplitChars '=' [] rest.length rest with
    | [] => none
    | [_] => none
    | k :: vs => some (String.mk k, String.mk (List.intercalate ['='] vs))
  | _ => none

/-- Modelled from the spec: see `parseFlagTok`.  The concrete collaborator
used to instantiate `Collab` in witnesses. -/
def flagsParse : Collab
  | st, [] => (st, [], none)
  | st, t :: rest =>
    match parseFlagTok t with
    | some kv =>
      if (st.lookup kv.1).isSome then
        flagsParse (st.map (fun p => if p.1 = kv.1 then (p.1, kv.2) else p))
          rest
      else (st, t :: rest,
        some ("flag provided but not defined: -" ++ kv.1))
    | none => (st, t :: rest, none)

/-! ### Concrete commands (used by witnesses and counterexamples) -/

/-- A leaf command named "bar" whose action always succeeds (what matters to
the model is that the call is recorded). -/
def barLeaf : Command := .mk "bar" "" 0 0 none none (some (fun _ => none))
  none none none

/-- A leaf command named "foo" requiring exactly one positional argument. -/
def fooLeaf : Command := .mk "foo" "" 1 1 none none (some (fun _ => none))
  none none none

/-- A branch command named "main": sub-commands but no `Func`, no flags, no
policy. -/
def mainTwo : Command := .mk "main" "" 0 0 none none none
  (some [barLeaf, fooLeaf]) none none

/-- Like `mainTwo` but with `OnError = ContinueOnError`. -/
def mainCont : Command := .mk "main" "" 0 0 none none none
  (some [barLeaf, fooLeaf]) none (some .continueOnError)

/-- The `TestArgs` command: `MaxArgs = NoArgs`, nothing else set. -/
def testNoArgs : Command := .mk "test" "" 0 NoArgs none none none none
  none none

/-- A command with `Parameters` unset, `MinArgs = 0`, `MaxArgs = 1`: the
input on which `Command.parameters` slices an empty string. -/
def cmd9 : Command := .mk "c9" "" 0 1 none none none none none none

/-! ## Helper lemmas -/

/-- The grouping pass, related to the spec-side split: with an open run `cur`
the next emitted group is `cur` extended by the tokens up to the next
delimiter, and on an empty open run the passes agree. -/
theorem groupPass_spec (delim : String) : ∀ args : List String,
    (∀ cur, cur ≠ [] → groupPass delim cur args =
      (cur ++ args.takeWhile (fun t => t ≠ delim)) ::
        specStrictSplit delim (args.dropWhile (fun t => t ≠ delim))) ∧
    groupPass delim [] args = specStrictSplit delim args := by
  intro args
  induction args with
  | nil =>
    constructor
    · intro cur h
      simp [groupPass, specStrictSplit, h]
    · simp [groupPass, specStrictSplit]
  | cons a rest ih =>
    obtain ⟨ihA, ihB⟩ := ih
    constructor
    · intro cur hcur
      by_cases hd : a = delim
      · simp [groupPass, hd, hcur, specStrictSplit, ihB]
      · have h2 : cur ++ [a] ≠ [] := by simp
        simp only [groupPass, if_neg hd]
        rw [ihA (cur ++ [a]) h2]
        simp [hd, List.takeWhile_cons, List.dropWhile_cons,
          List.append_assoc]
    · by_cases hd : a = delim
      · simp [groupPass, hd, specStrictSplit, ihB]
      · have h1 : [a] ≠ ([] : List String) := by simp
        simp only [groupPass, if_neg hd, List.nil_append]
        rw [ihA [a] h1]
        simp [specStrictSplit, hd]

/-- Every group the grouping pass emits is a non-empty token list. -/
theorem groupPass_ne_nil (delim : String) : ∀ (args cur : List String),
    ∀ g ∈ groupPass delim cur args, g ≠ [] := by
  intro args
  induction args with
  | nil =>
    intro cur g hg
    by_cases hcur : cur = []
    · simp [groupPass, hcur] at hg
    · simp [groupPass, hcur] at hg
      simp [hg, hcur]
  | cons a rest ih =>
    intro cur g hg
    by_cases hd : a = delim
    · by_cases hcur : cur = []
      · simp [groupPass, hd, hcur] at hg
        exact ih [] g hg
      · simp [groupPass, hd, hcur] at hg
        rcases hg with hg | hg
        · simp [hg, hcur]
        · exact ih [] g hg
    · simp only [groupPass, if_neg hd] at hg
      exact ih (cur ++ [a]) g hg

/-- With no policy resolved, the deferred finalizer returns the body's
result unchanged. -/
theorem finalize_none (sink : Nat) (args : List String) (r : RunOut) :
    finalize sink none args r = r := by
  cases hr : r.err <;> simp [finalize, hr]

/-- With `ContinueOnError` resolved and a failing body, the finalizer prints
the error and returns nil. -/
theorem finalize_cont (sink : Nat) (args : List String) (r : RunOut)
    (e : GoErr) (hr : r.err = some e) :
    finalize sink (some .continueOnError) args r =
      ⟨r.events ++ [.msg sink (e.text ++ "\n")], none⟩ := by
  simp [finalize, hr]

/-- With a custom handler resolved and a failing body, the finalizer's
result replaces the returned error by the handler's result. -/
theorem finalize_custom (sink : Nat) (args : List String) (r : RunOut)
    (e : GoErr) (f : List String → GoErr → Option GoErr)
    (hr : r.err = some e) :
    finalize sink (some (.custom f)) args r = ⟨r.events, f args e⟩ := by
  simp [finalize, hr]

/-- Updating one key of a store does not change the looked-up value of a
different key. -/
theorem lookup_map_update (k key v : String) (hne : key ≠ k) :
    ∀ st : Store,
    (st.map (fun p => if p.1 = key then (p.1, v) else p)).lookup k =
      st.lookup k := by
  intro st
  induction st with
  | nil => rfl
  | cons p ps ih =>
    obtain ⟨a, b⟩ := p
    simp only [List.map_cons]
    by_cases hp : a = key
    · rw [if_pos hp]
      subst hp
      have hka : (k == a) = false := by
        rw [beq_eq_false_iff_ne]
        exact Ne.symm hne
      simp [List.lookup, hka, ih]
    · rw [if_neg hp]
      cases hka : k == a <;> simp [List.lookup, hka, ih]

/-- Frame property of the concrete collaborator: a flag that no token of the
invocation assigns keeps its value in the store (whether or not parsing
stops early or fails). -/
theorem flagsParse_frame (k : String) : ∀ (args : List String) (st : Store),
    (∀ t ∈ args, ∀ kv, parseFlagTok t = some kv → kv.1 ≠ k) →
    (flagsParse st args).1.lookup k = st.lookup k := by
  intro args
  induction args with
  | nil => intro st _; rfl
  | cons t rest ih =>
    intro st h
    have hkv : ∀ kv, parseFlagTok t = some kv → kv.1 ≠ k :=
      h t (List.mem_cons_self t rest)
    have hrest : ∀ t' ∈ rest, ∀ kv, parseFlagTok t' = some kv → kv.1 ≠ k :=
      fun t' ht' => h t' (List.mem_cons_of_mem t ht')
    cases hpt : parseFlagTok t with
    | none => simp [flagsParse, hpt]
    | some kv =>
      have hne : kv.1 ≠ k := hkv kv hpt
      by_cases hdef : (st.lookup kv.1).isSome
      · simp only [flagsParse, hpt, if_pos hdef]
        rw [ih _ hrest, lookup_map_update k kv.1 kv.2 hne]
      · simp [flagsParse, hpt, hdef]

/-! The five `TestSplit` vectors from the repository's own test suite,
reproduced by the model (sanity checks of the first-pass embedding). -/

example : SplitCommand ["a", ";b", "c;", "d;e", ";f;g;", ";", "h"] ";"
    StrictDelim = [["a", ";b", "c;", "d;e", ";f;g;"], ["h"]] := by decide

example : SplitCommand ["a", ";b", "c;", "d;e", ";f;g;", ";", "h"] ";"
    TrailingDelim = [["a", ";b", "c"], ["d;e", ";f;g"], ["h"]] := by decide

example : SplitCommand ["a", ";b", "c;", "d;e", ";f;g;", ";", "h"] ";"
    PreceedingDelim = [["a"], ["b", "c;", "d;e"], ["f;g;"], ["h"]] := by
  decide

example : SplitCommand ["a", ";b", "c;", "d;e", ";f;g;", ";", "h"] ";"
    (PreceedingDelim ||| TrailingDelim) =
    [["a"], ["b", "c"], ["d;e"], ["f;g"], ["h"]] := by decide

example : SplitCommand ["a", ";b", "c;", "d;e", ";f;g;", ";", "h"] ";"
    AnyDelim = [["a"], ["b"], ["c"], ["d"], ["e"], ["f"], ["g"], ["h"]] := by
  decide

/-! ## Claim theorems -/

/-- C8: for every token sequence and delimiter, `SplitCommand` under the
`Strict` policy returns exactly the groups obtained by splitting the sequence
only at elements equal to the delimiter (tokens merely containing the
delimiter are left intact, as in `specStrictSplit`); and under every policy
value no returned group is an empty sequence. -/
theorem claim8_split_strict_no_empty (args : List String) (delim : String)
    (options : Nat) :
    SplitCommand args delim StrictDelim = specStrictSplit delim args ∧
    ∀ g ∈ SplitCommand args delim options, g ≠ [] := by
  constructor
  · simp only [SplitCommand, StrictDelim, ne_eq, not_true_eq_false,
      if_false, reduceIte]
    exact (groupPass_spec delim args).2
  · intro g hg
    simp only [SplitCommand] at hg
    exact groupPass_ne_nil delim _ _ g hg

/-- Witness for C8 at the repository's own test vector (with `AnyDelim` as
the policy for the no-empty-group part). -/
theorem claim8_witness :
    SplitCommand ["a", ";b", "c;", "d;e", ";f;g;", ";", "h"] ";"
      StrictDelim =
      specStrictSplit ";" ["a", ";b", "c;", "d;e", ";f;g;", ";", "h"] ∧
    ∀ g ∈ SplitCommand ["a", ";b", "c;", "d;e", ";f;g;", ";", "h"] ";"
      AnyDelim, g ≠ [] :=
  claim8_split_strict_no_empty ["a", ";b", "c;", "d;e", ";f;g;", ";", "h"]
    ";" AnyDelim

/-- C9 (code bug): the spec regards generation of the positional placeholder
as total, but on `Parameters` unset, `MinArgs = 0`, `MaxArgs = 1` the Go code
builds an empty string and slices it with `[1:]`, which panics (modelled as
`none`).  The `MaxArgs = NoArgs` part of the claim does hold: the hint is the
empty string. -/
theorem claim9_parameters_panics :
    Command.parameters cmd9 = none ∧ parametersOf "" 0 NoArgs = some "" := by
  constructor <;> rfl

/-- C5: `Lookup` over the chain (node first, then its ancestors to the root)
returns the field value from the first node whose name matches the owner
name (any node when the owner name is empty) and whose current option
snapshot defines the field; scopes that match the owner but lack the field do
not stop the search, and an exhausted chain yields `none` (not-found), never
an error. -/
theorem claim5_lookup_chain (chain : List Command) (cmd name : String) :
    Lookup chain cmd name =
      (chain.find? (fun c => decide (cmd = "" ∨ cmd = c.Name) &&
        (storeLookup c.Flags name).isSome)).bind
        (fun c => storeLookup c.Flags name) := by
  induction chain with
  | nil => simp [Lookup]
  | cons c rest ih =>
    by_cases h : cmd = "" ∨ cmd = c.Name
    · cases hv : storeLookup c.Flags name with
      | some v => simp [Lookup, h, hv, List.find?_cons, ih]
      | none => simp [Lookup, h, hv, List.find?_cons, ih]
    · simp [Lookup, h, List.find?_cons, ih]

/-- C2: after option parsing succeeds, `Command.parse` validates the count
of remaining positional tokens, in this precedence: (a) `MaxArgs = NoArgs`
with any token remaining fails with exactly `"<path>: takes no arguments"`;
(b) otherwise fewer than `MinArgs` tokens fails with exactly
`"<path>: requires at least <MinArgs> arguments"`; (c) otherwise more than a
positive `MaxArgs` tokens fails with exactly
`"<path>: takes no more than <MaxArgs> arguments"`; each failure is a
`UsageError` naming the node (its path), and a count passing all three
checks validates. -/
theorem claim2_arg_count_validation (P : Collab) (c : Command)
    (path : String) (args : List String) (fl : Option Store)
    (rest : List String)
    (hp : parseOptions P c.Defaults c.Flags args = (fl, rest, none)) :
    Command.parse P c path args =
      (fl, rest, validateCount path c.MinArgs c.MaxArgs rest) ∧
    (c.MaxArgs = NoArgs → rest ≠ [] →
      validateCount path c.MinArgs c.MaxArgs rest =
        some (.usage path (some "takes no arguments")) ∧
      (GoErr.usage path (some "takes no arguments")).text =
        path ++ ": takes no arguments") ∧
    (¬(c.MaxArgs = NoArgs ∧ rest ≠ []) → (rest.length : Int) < c.MinArgs →
      validateCount path c.MinArgs c.MaxArgs rest =
        some (.usage path
          (some ("requires at least " ++ toString c.MinArgs ++
            " arguments"))) ∧
      (GoErr.usage path
          (some ("requires at least " ++ toString c.MinArgs ++
            " arguments"))).text =
        path ++ ": " ++
          ("requires at least " ++ toString c.MinArgs ++ " arguments")) ∧
    (¬(c.MaxArgs = NoArgs ∧ rest ≠ []) →
      ¬((rest.length : Int) < c.MinArgs) →
      0 < c.MaxArgs → c.MaxArgs < (rest.length : Int) →
      validateCount path c.MinArgs c.MaxArgs rest =
        some (.usage path
          (some ("takes no more than " ++ toString c.MaxArgs ++
            " arguments"))) ∧
      (GoErr.usage path
          (some ("takes no more than " ++ toString c.MaxArgs ++
            " arguments"))).text =
        path ++ ": " ++
          ("takes no more than " ++ toString c.MaxArgs ++ " arguments")) ∧
    (¬(c.MaxArgs = NoArgs ∧ rest ≠ []) →
      ¬((rest.length : Int) < c.MinArgs) →
      ¬(0 < c.MaxArgs ∧ c.MaxArgs < (rest.length : Int)) →
      validateCount path c.MinArgs c.MaxArgs rest = none) := by
  refine ⟨?_, ?_, ?_, ?_, ?_⟩
  · simp [Command.parse, hp]
  · intro hmax hne
    refine ⟨by simp [validateCount, hmax, hne], ?_⟩
    simp only [GoErr.text]
    rw [String.append_assoc]
    rfl
  · intro hno hlt
    exact ⟨by simp [validateCount, hno, hlt], by simp [GoErr.text]⟩
  · intro hno hge hpos hgt
    refine ⟨?_, by simp [GoErr.text]⟩
    simp [validateCount, hno, hge, hpos, hgt]
  · intro hno hge hnm
    simp [validateCount, hno, hge, hnm]

/-- Witness for C2: the `TestArgs` scenario — a command with
`MaxArgs = NoArgs` and no flags, run on one positional token, fails
validation with exactly `"test: takes no arguments"`. -/
theorem claim2_witness :
    Command.parse flagsParse testNoArgs "test" ["arg"] =
      (none, ["arg"],
        validateCount "test" testNoArgs.MinArgs testNoArgs.MaxArgs
          ["arg"]) ∧
    validateCount "test" testNoArgs.MinArgs testNoArgs.MaxArgs ["arg"] =
      some (.usage "test" (some "takes no arguments")) ∧
    (GoErr.usage "test" (some "takes no arguments")).text =
      "test" ++ ": takes no arguments" := by
  have h := claim2_arg_count_validation flagsParse testNoArgs "test" ["arg"]
    none ["arg"] (by decide)
  exact ⟨h.1, (h.2.1 (by decide) (by decide)).1, (h.2.1 (by decide)
    (by decide)).2⟩

/-- C1: for every node on which `Run` is invoked and whose option parsing
and argument-count validation succeed: if the node has sub-commands
(`SubCommands` non-nil) and at least one positional token remains, `Run`
dispatches to the sub-command step, which runs the child selected by exact
name match on the first remaining token with the rest of the tokens;
otherwise, if the node has an action (`Func`), the action runs on the
remaining tokens; otherwise `Run` returns success (nil error and no
output). -/
theorem claim1_run_dispatch_priority (P : Collab) (n : Nat) (c : Command)
    (anc : List Command) (args : List String) (fl : Option Store)
    (rest : List String)
    (hp : Command.parse P c (c.path anc) args = (fl, rest, none)) :
    (c.SubCommands.isSome → rest ≠ [] →
      Command.Run P (n + 1) c anc args =
        finalize (resolveStderr (c :: anc)) (resolveOnError (c :: anc))
          rest (Command.runsub P n c anc rest) ∧
      ∀ t rs sc, rest = t :: rs → c.findSub t = some sc →
        Command.runsub P n c anc rest = Command.Run P n sc (c :: anc) rs) ∧
    ((c.SubCommands.isSome = false ∨ rest = []) → ∀ f, c.Func = some f →
      Command.Run P (n + 1) c anc args =
        finalize (resolveStderr (c :: anc)) (resolveOnError (c :: anc))
          rest ⟨[.funcCalled (c.path anc) rest], f rest⟩) ∧
    ((c.SubCommands.isSome = false ∨ rest = []) → c.Func = none →
      Command.Run P (n + 1) c anc args = ⟨[], none⟩) := by
  refine ⟨?_, ?_, ?_⟩
  · intro hsub hne
    constructor
    · simp only [Command.Run, runBody, hp, Command.runsub]
      simp [hsub, hne]
    · intro t rs sc hrest hfind
      simp [Command.runsub, runsubWith, hrest, hfind]
  · intro hor f hf
    have hcond : ¬(c.SubCommands.isSome ∧ rest ≠ []) := by
      rcases hor with h | h <;> simp [h]
    simp only [Command.Run, runBody, hp]
    simp [hcond, hf]
  · intro hor hf
    have hcond : ¬(c.SubCommands.isSome ∧ rest ≠ []) := by
      rcases hor with h | h <;> simp [h]
    simp only [Command.Run, runBody, hp]
    simp [hcond, hf, finalize]

/-- Witness for C1: `mainTwo` (children, no action, no flags) run on
`["bar"]` dispatches to the child named "bar". -/
theorem claim1_witness :
    Command.parse flagsParse mainTwo (mainTwo.path []) ["bar"] =
      (none, ["bar"], none) ∧
    Command.Run flagsParse 2 mainTwo [] ["bar"] =
      finalize (resolveStderr [mainTwo]) (resolveOnError [mainTwo]) ["bar"]
        (Command.runsub flagsParse 1 mainTwo [] ["bar"]) ∧
    Command.runsub flagsParse 1 mainTwo [] ["bar"] =
      Command.Run flagsParse 1 barLeaf [mainTwo] [] := by
  have hp : Command.parse flagsParse mainTwo (mainTwo.path []) ["bar"] =
      (none, ["bar"], none) := by decide
  have h := (claim1_run_dispatch_priority flagsParse 1 mainTwo [] ["bar"]
    none ["bar"] hp).1 (by decide) (by decide)
  exact ⟨hp, h.1, h.2 "bar" [] barLeaf rfl (by rfl)⟩

/-- C3 counterexample: the claim says a node with children, no remaining
tokens, and no action yields the "sub command required" usage error when
run, but `Run` only dispatches to `runsub` when tokens remain: `mainTwo`
(children `bar`, `foo`; no `Func`; no flags) run on no tokens returns nil
with no output, not that error. -/
theorem claim3_counterexample :
    Command.Run flagsParse 1 mainTwo [] [] = ⟨[], none⟩ ∧
    (Command.Run flagsParse 1 mainTwo [] []).err ≠
      some (.usage "main" (some "sub command required \x7bbar, foo\x7d")) := by
  constructor
  · decide
  · decide

/-- C3 (amended): child dispatch (`runsub`) fails in exactly two ways, each
a `UsageError` with exact text: a first remaining token matching no child's
name exactly yields `"<path>: <token>: unknown command"`; and dispatch with
no remaining tokens — reachable only via `RunSubcommands`/`runsub`, since
`Run` dispatches only when tokens remain — yields
`"<path>: sub command required \x7b<child names sorted, comma-space-joined>\x7d"`
regardless of whether an action is present.  A node run via `Run` with
children, no remaining tokens and no action returns success instead. -/
theorem claim3_amended_dispatch_failures :
    (∀ (run : Command → List Command → List String → RunOut) (c : Command)
      (anc : List Command) (t : String) (rs : List String),
      c.findSub t = none →
      runsubWith run c anc (t :: rs) =
        ⟨[], some (.usage (c.path anc) (some (t ++ ": unknown command")))⟩ ∧
      (GoErr.usage (c.path anc) (some (t ++ ": unknown command"))).text =
        c.path anc ++ ": " ++ (t ++ ": unknown command")) ∧
    (∀ (run : Command → List Command → List String → RunOut) (c : Command)
      (anc : List Command),
      runsubWith run c anc [] =
        ⟨[], some (.usage (c.path anc)
          (some ("sub command required \x7b" ++
            String.intercalate ", " c.subCommands ++ "\x7d")))⟩ ∧
      (GoErr.usage (c.path anc)
          (some ("sub command required \x7b" ++
            String.intercalate ", " c.subCommands ++ "\x7d"))).text =
        c.path anc ++ ": " ++
          ("sub command required \x7b" ++
            String.intercalate ", " c.subCommands ++ "\x7d")) ∧
    (∀ (P : Collab) (n : Nat) (c : Command) (anc : List Command)
      (args : List String) (fl : Option Store),
      Command.parse P c (c.path anc) args = (fl, [], none) →
      c.Func = none →
      Command.Run P (n + 1) c anc args = ⟨[], none⟩) := by
  refine ⟨?_, ?_, ?_⟩
  · intro run c anc t rs hfind
    exact ⟨by simp [runsubWith, hfind], rfl⟩
  · intro run c anc
    exact ⟨rfl, rfl⟩
  · intro P n c anc args fl hp hf
    simp only [Command.Run, runBody, hp]
    simp [hf, finalize]

/-- Witness for C3 at concrete inputs: unknown token "bob" under `mainTwo`,
empty-token dispatch under `mainTwo` (sorted children joined as
"bar, foo"), and `Run` of `mainTwo` on no tokens. -/
theorem claim3_witness :
    Command.runsub flagsParse 1 mainTwo [] ["bob"] =
      ⟨[], some (.usage "main" (some "bob: unknown command"))⟩ ∧
    Command.runsub flagsParse 1 mainTwo [] [] =
      ⟨[], some (.usage "main"
        (some "sub command required \x7bbar, foo\x7d"))⟩ ∧
    Command.Run flagsParse 1 mainTwo [] [] = ⟨[], none⟩ := by
  refine ⟨?_, ?_, ?_⟩
  · have h := (claim3_amended_dispatch_failures.1
      (fun sc a r => Command.Run flagsParse 1 sc a r) mainTwo [] "bob" []
      (by rfl)).1
    exact h.trans (by decide)
  · have h := (claim3_amended_dispatch_failures.2.1
      (fun sc a r => Command.Run flagsParse 1 sc a r) mainTwo []).1
    exact h.trans (by decide)
  · exact claim3_amended_dispatch_failures.2.2 flagsParse 0 mainTwo [] []
      none (by decide) (by rfl)

/-- C4 counterexample: the claim says every `UsageError` produced during a
run is first printed to the resolved sink and then triggers an automatic
Help rendering before propagating — in particular an unknown-sub-command
failure.  But `Run` on `mainTwo` with token "bob" propagates the
unknown-command `UsageError` with an empty event trace: nothing is printed
and no Help is invoked at the point of detection. -/
theorem claim4_counterexample :
    Command.Run flagsParse 2 mainTwo [] ["bob"] =
      ⟨[], some (.usage "main" (some "bob: unknown command"))⟩ := by
  decide

/-- C4 (amended): `UsageError`s returned by `Command.parse` (flag-parse
failures and argument-count violations) are printed to the node's resolved
output sink at the point of detection, then trigger an automatic Help
rendering for the error's node, and then propagate (subject to the deferred
`OnError` policy).  The unknown-sub-command (and missing-sub-command)
`UsageError`s produced by `runsub` propagate with no printing and no help
rendering at the point of detection; they are printed only if a resolved
`OnError` policy (such as `ContinueOnError` or `ExitOnError`) prints
them. -/
theorem claim4_amended_usage_error_reporting :
    (∀ (P : Collab) (n : Nat) (c : Command) (anc : List Command)
      (args rest : List String) (fl : Option Store) (e : GoErr),
      Command.parse P c (c.path anc) args = (fl, rest, some e) →
      Command.Run P (n + 1) c anc args =
        finalize (resolveStderr (c :: anc)) (resolveOnError (c :: anc))
          rest
          ⟨[.msg (resolveStderr (c :: anc)) (e.text ++ "\n")] ++
            (match e with
             | .usage p _ => [.helpFor p]
             | _ => []), some e⟩) ∧
    (∀ (P : Collab) (n : Nat) (c : Command) (anc : List Command)
      (args rest : List String) (fl : Option Store),
      Command.parse P c (c.path anc) args = (fl, rest, none) →
      c.SubCommands.isSome → ∀ t rs, rest = t :: rs → c.findSub t = none →
      Command.Run P (n + 1) c anc args =
        finalize (resolveStderr (c :: anc)) (resolveOnError (c :: anc))
          rest
          ⟨[], some (.usage (c.path anc)
            (some (t ++ ": unknown command")))⟩) := by
  constructor
  · intro P n c anc args rest fl e hp
    simp only [Command.Run, runBody, hp]
  · intro P n c anc args rest fl hp hsub t rs hrest hfind
    simp only [Command.Run, runBody, hp]
    subst hrest
    simp [hsub, runsubWith, hfind]

/-- Witness for C4: an argument-count `UsageError` on `testNoArgs` is
printed and triggers Help before propagating. -/
theorem claim4_witness :
    Command.Run flagsParse 1 testNoArgs [] ["arg"] =
      ⟨[.msg 0 "test: takes no arguments\n", .helpFor "test"],
        some (.usage "test" (some "takes no arguments"))⟩ := by
  have h := claim4_amended_usage_error_reporting.1 flagsParse 0 testNoArgs
    [] ["arg"] ["arg"] none (.usage "test" (some "takes no arguments"))
    (by decide)
  exact h.trans (by decide)

/-- C7: when a `Run` invocation ends with a non-nil error, the policy
applied is the `OnError` of the first node on the chain from the node
upward that has one set (the resolution is exactly a first-match search);
if no node on the chain has a policy set, the body's result — its error in
particular — is returned unmodified; a resolved custom handler's result
replaces the returned error; and with `ContinueOnError` resolved the error
is printed to the resolved sink and `Run` returns nil. -/
theorem claim7_onerror_policy :
    (∀ chain : List Command,
      resolveOnError chain =
        (chain.find? (fun c => c.OnError.isSome)).bind Command.OnError) ∧
    (∀ (P : Collab) (n : Nat) (c : Command) (anc : List Command)
      (args : List String),
      resolveOnError (c :: anc) = none →
      Command.Run P (n + 1) c anc args =
        (runBody P (fun sc a r => Command.Run P n sc a r) c anc args).2) ∧
    (∀ (P : Collab) (n : Nat) (c : Command) (anc : List Command)
      (args : List String) (e : GoErr),
      resolveOnError (c :: anc) = some .continueOnError →
      (runBody P (fun sc a r => Command.Run P n sc a r) c anc
          args).2.err = some e →
      Command.Run P (n + 1) c anc args =
        ⟨(runBody P (fun sc a r => Command.Run P n sc a r) c anc
            args).2.events ++
          [.msg (resolveStderr (c :: anc)) (e.text ++ "\n")], none⟩) ∧
    (∀ (P : Collab) (n : Nat) (c : Command) (anc : List Command)
      (args : List String) (e : GoErr)
      (f : List String → GoErr → Option GoErr),
      resolveOnError (c :: anc) = some (.custom f) →
      (runBody P (fun sc a r => Command.Run P n sc a r) c anc
          args).2.err = some e →
      (Command.Run P (n + 1) c anc args).err =
        f (runBody P (fun sc a r => Command.Run P n sc a r) c anc
            args).1 e) := by
  refine ⟨?_, ?_, ?_, ?_⟩
  · intro chain
    induction chain with
    | nil => simp [resolveOnError]
    | cons c rest ih =>
      cases h : c.OnError with
      | some p => simp [resolveOnError, h, List.find?_cons]
      | none => simp [resolveOnError, h, List.find?_cons, ih]
  · intro P n c anc args hpol
    simp only [Command.Run]
    rw [hpol, finalize_none]
  · intro P n c anc args e hpol hb
    simp only [Command.Run]
    rw [hpol, finalize_cont _ _ _ e hb]
  · intro P n c anc args e f hpol hb
    simp only [Command.Run]
    rw [hpol, finalize_custom _ _ _ e f hb]

/-- Witness for C7: `mainCont` (policy `ContinueOnError` on the node
itself) fails with the unknown-command error, which is printed once and
swallowed: `Run` returns nil. -/
theorem claim7_witness :
    resolveOnError [mainCont] = some .continueOnError ∧
    Command.Run flagsParse 2 mainCont [] ["bob"] =
      ⟨[.msg 0 "main: bob: unknown command\n"], none⟩ := by
  refine ⟨by rfl, ?_⟩
  have h := claim7_onerror_policy.2.2.1 flagsParse 1 mainCont [] ["bob"]
    (.usage "main" (some "bob: unknown command")) (by rfl) (by decide)
  exact h.trans (by decide)

/-- C6: a node bound via persistent options (`Flags` set, `Defaults` nil)
parses into the same store on every run — for any collaborator the parse
target is exactly the current `Flags` store — so a flag value present in the
store after one invocation is still observed after the next invocation in
which that flag is not given.  A node bound via ephemeral defaults
(`Defaults` set) has a fresh copy of the `Defaults` prototype parsed into on
every invocation: the result is independent of the current `Flags` store,
and with no flag tokens given the values are exactly the defaults again. -/
theorem claim6_sticky_vs_ephemeral :
    (∀ (P : Collab) (st : Store) (args : List String),
      (parseOptions P none (some st) args).1 = some (P st args).1) ∧
    (∀ (st₁ : Store) (k v : String) (args₂ : List String),
      st₁.lookup k = some v →
      (∀ t ∈ args₂, ∀ kv, parseFlagTok t = some kv → kv.1 ≠ k) →
      ∃ st₂,
        (parseOptions flagsParse none (some st₁) args₂).1 = some st₂ ∧
        st₂.lookup k = some v) ∧
    (∀ (P : Collab) (d : Store) (fl fl' : Option Store)
      (args : List String),
      parseOptions P (some d) fl args = parseOptions P (some d) fl' args) ∧
    (∀ (d : Store) (fl : Option Store),
      (parseOptions flagsParse (some d) fl []).1 = some d) := by
  refine ⟨?_, ?_, ?_, ?_⟩
  · intro P st args
    rfl
  · intro st₁ k v args₂ hv hframe
    refine ⟨(flagsParse st₁ args₂).1, rfl, ?_⟩
    rw [flagsParse_frame k args₂ st₁ hframe]
    exact hv
  · intro P d fl fl' args
    cases fl <;> cases fl' <;> rfl
  · intro d fl
    cases fl <;> rfl

/-- Witness for C6: the store holding `name = "foo"` after a first
invocation still yields `"foo"` after a second invocation whose only token
is the positional `"sub"`; an ephemeral node with prototype
`title = "Local"` parses back to the prototype regardless of a differing
current `Flags` store. -/
theorem claim6_witness :
    ([("name", "foo")] : Store).lookup "name" = some "foo" ∧
    (∃ st₂,
      (parseOptions flagsParse none (some [("name", "foo")]) ["sub"]).1 =
        some st₂ ∧
      st₂.lookup "name" = some "foo") ∧
    (parseOptions flagsParse (some [("title", "Local")])
      (some [("title", "Changed")]) []).1 = some [("title", "Local")] := by
  refine ⟨by decide, ?_, ?_⟩
  · apply claim6_sticky_vs_ephemeral.2.1 [("name", "foo")] "name" "foo"
      ["sub"] (by decide)
    intro t ht kv hkv
    have ht' : t = "sub" := List.mem_singleton.mp ht
    rw [ht'] at hkv
    have : parseFlagTok "sub" = none := by decide
    rw [this] at hkv
    exact Option.noConfusion hkv
  · exact claim6_sticky_vs_ephemeral.2.2.2 [("title", "Local")]
      (some [("title", "Changed")])

/-- C10: if both `Defaults` and `Flags` are set, `Defaults` takes
precedence: the registration step of every parse ignores the current
`Flags` value entirely (the parse result is the same for any `Flags`
value, so prior stored values are never read) and replaces `Flags` with the
collaborator's parse of a fresh copy of the `Defaults` prototype — the node
behaves as ephemeral, never as persistent. -/
theorem claim10_defaults_precedence :
    (∀ (P : Collab) (d : Store) (fl fl' : Option Store)
      (args : List String),
      parseOptions P (some d) fl args = parseOptions P (some d) fl' args) ∧
    (∀ (P : Collab) (d : Store) (fl : Option Store) (args : List String),
      (parseOptions P (some d) fl args).1 = some (P d args).1) := by
  constructor
  · intro P d fl fl' args
    cases fl <;> cases fl' <;> rfl
  · intro P d fl args
    cases fl <;> rfl

end Commander
